import Mathlib

/- Shallow embedding of the favicon catalogue scripts of this repository:
   src/download-favicons.js (acquisition orchestrator), src/generate-tiles.js
   (tile compositor, second revision with JSON sidecars and the mtime index)
   and src/utils.js (domain / icon-path helpers).  External library calls
   (URL parsing, md5, image decoding, the filesystem) are modelled as
   parameters of an environment record; everything the scripts compute
   themselves is translated directly. -/

set_option linter.unusedVariables false

/- JS string primitives over character lists (String.startsWith and friends
   do not reduce in the kernel, so we work on List Char). -/

def charsStartWith : List Char → List Char → Bool
  | _, [] => true
  | [], _ :: _ => false
  | c :: cs, d :: ds => (c == d) && charsStartWith cs ds

/- Model of JavaScript String.prototype.includes(sub). -/
def charsContains (sub : List Char) : List Char → Bool
  | [] => sub.isEmpty
  | c :: cs => charsStartWith (c :: cs) sub || charsContains sub cs

def strIncludes (s sub : String) : Bool := charsContains sub.toList s.toList

def lowerChar (c : Char) : Char :=
  if 'A' ≤ c && c ≤ 'Z' then Char.ofNat (c.toNat + 32) else c

/- The basename part of a path: the characters after the last slash. -/
def afterLastSlash (l : List Char) : List Char :=
  l.foldl (fun acc c => if c == '/' then [] else acc ++ [c]) []

def lastDotIdx (b : List Char) : Option Nat :=
  ((b.enum.filter (fun p => p.2 == '.')).getLast?).map (fun p => p.1)

/- node path.extname on a basename: substring from the last dot, unless that
   dot is the first character of the basename. -/
def extOfBasename (b : List Char) : List Char :=
  match lastDotIdx b with
  | none => []
  | some 0 => []
  | some i => b.drop i

/- path.extname(pathname).toLowerCase() as used by the ICO check. -/
def extnameLower (p : String) : String :=
  ⟨(extOfBasename (afterLastSlash p.toList)).map lowerChar⟩

/- External collaborators: WHATWG URL parsing, md5, and per-run request or
   filesystem outcomes are inputs of the model, not reimplemented. -/
structure Env where
  hostname : String → String
  md5hex : String → String
  resolveFallbackFavicon : String → Option String
  pathnameOf : String → String

/- utils.js getDomain: new URL(url).hostname.replace(/^www\./, ''). -/
def getDomain (env : Env) (url : String) : String :=
  let h := env.hostname url
  if charsStartWith h.toList "www.".toList then h.drop 4 else h

/- utils.js getRelativePathFromFilename / getIconRelativePath: first two and
   next two hex chars of md5(domain ++ ".png") as directory levels. -/
def iconRelPath (env : Env) (url : String) : String :=
  let domain := getDomain env url
  let filename := domain ++ ".png"
  let h := env.md5hex filename
  (h.take 2) ++ "/" ++ ((h.drop 2).take 2) ++ "/" ++ filename

/- The tile assignment written by the compositor onto an entry. -/
structure TileRef where
  file : String
  index : Nat
  row : Nat
  col : Nat
  deriving Repr, DecidableEq

/- One catalogue record (a JSON object; absent fields are none, so the JS
   spread and truthiness tests are expressible).  Timestamps are epoch
   milliseconds as integers. -/
structure Entry where
  url : String := ""
  rank : Option Nat := none
  favicon : Option String := none
  status : Option String := none
  error : Option String := none
  httpStatus : Option Nat := none
  etag : Option String := none
  lastModified : Option String := none
  lastCheckTime : Option Int := none
  downloadTime : Option Int := none
  contentLength : Option String := none
  contentType : Option String := none
  failureCount : Option Nat := none
  localPath : Option String := none
  tile : Option TileRef := none
  deriving Repr, DecidableEq

/- JS truthiness of a possibly-missing number (undefined and 0 are falsy). -/
def truthyNat (o : Option Nat) : Bool := o.getD 0 != 0

/- download-favicons.js CONFIG. -/
structure DlConfig where
  maxRequests : Nat := 50000
  saveBatchSize : Nat := 25
  maxRetries : Nat := 3
  skipDownloadPeriodMs : Int := 24 * 60 * 60 * 1000
  targetSize : Nat := 32

def DLCONFIG : DlConfig := {}

/- generate-tiles.js CONFIG (the sidecar revision: GRID_SIZE 10, ICON_SIZE 32,
   BORDER_SIZE 2; FORCE_REGEN comes from the command line). -/
structure TilesConfig where
  gridSize : Nat := 10
  iconSize : Nat := 32
  borderSize : Nat := 2
  forceRegen : Bool := false

/- prevEntry.failureCount && prevEntry.failureCount >= CONFIG.MAX_RETRIES. -/
def exhaustedCheck (cfg : DlConfig) (p : Entry) : Bool :=
  truthyNat p.failureCount && decide (cfg.maxRetries ≤ p.failureCount.getD 0)

/- prevEntry.lastCheckTime && now - lastCheck < CONFIG.SKIP_DOWNLOAD_PERIOD_MS. -/
def recentCheck (cfg : DlConfig) (p : Entry) (now : Int) : Bool :=
  match p.lastCheckTime with
  | some t => decide (now - t < cfg.skipDownloadPeriodMs)
  | none => false

/- metadata = { ...entry, ...prevEntry }; delete metadata.localPath.
   A field of prevEntry overrides the input entry field exactly when it is
   present (JSON round-trips drop undefined properties). -/
def initialMetadata (e : Entry) (prev : Option Entry) : Entry :=
  match prev with
  | none => { e with localPath := none }
  | some p =>
    { url := p.url
      rank := p.rank <|> e.rank
      favicon := p.favicon <|> e.favicon
      status := p.status <|> e.status
      error := p.error <|> e.error
      httpStatus := p.httpStatus <|> e.httpStatus
      etag := p.etag <|> e.etag
      lastModified := p.lastModified <|> e.lastModified
      lastCheckTime := p.lastCheckTime <|> e.lastCheckTime
      downloadTime := p.downloadTime <|> e.downloadTime
      contentLength := p.contentLength <|> e.contentLength
      contentType := p.contentType <|> e.contentType
      failureCount := p.failureCount <|> e.failureCount
      localPath := none
      tile := p.tile <|> e.tile }

/- What the outside world answers for one attempted fetch.  fault covers a
   rejected fetch (timeout or transport failure, thrown before the header
   fields are refreshed); resp carries the HTTP status, the four response
   headers read on success, and, for a 200 body, the outcome of the
   arrayBuffer-decode-resize-write pipeline (none = it succeeded, some msg =
   it threw msg, landing in the same catch block). -/
inductive NetOutcome where
  | fault (msg : String)
  | resp (status : Nat) (etagH lastModifiedH contentLengthH contentTypeH : Option String)
      (pipeErr : Option String)
  deriving Repr, DecidableEq

structure StepResult where
  result : Entry
  networkAttempt : Bool
  deriving Repr, DecidableEq

/- The body of the per-entry loop from the point where both skip tests have
   been passed: resolve the favicon URL, fetch, and fold the outcome into the
   merged metadata, mirroring the try/catch of downloadFavicons. -/
def resolvedFavicon (env : Env) (e : Entry) : Option String :=
  match e.favicon with
  | some f => some f
  | none => env.resolveFallbackFavicon e.url

def fetchResult (cfg : DlConfig) (env : Env) (e : Entry) (prev : Option Entry)
    (now : Int) (out : NetOutcome) : StepResult :=
  let metadata := initialMetadata e prev
  match resolvedFavicon env e with
  | none =>
    { result := { metadata with
        status := some "error"
        error := some "No favicon URL available"
        failureCount := some (metadata.failureCount.getD 0 + 1) }
      networkAttempt := false }
  | some _ =>
    match out with
    | NetOutcome.fault msg =>
      { result := { metadata with
          status := some "error"
          error := some msg
          failureCount := some (metadata.failureCount.getD 0 + 1) }
        networkAttempt := true }
    | NetOutcome.resp st et lm cl ct pipeErr =>
      let m1 := { metadata with lastCheckTime := some now, httpStatus := some st }
      if st == 304 then
        { result := { m1 with
            status := some "not_modified", error := none, failureCount := some 0 }
          networkAttempt := true }
      else if st == 200 then
        match pipeErr with
        | none =>
          { result := { m1 with
              downloadTime := some now
              etag := et
              lastModified := lm
              contentLength := cl
              contentType := ct
              status := some "downloaded"
              error := none
              failureCount := some 0 }
            networkAttempt := true }
        | some msg =>
          { result := { m1 with
              status := some "error"
              error := some msg
              failureCount := some (m1.failureCount.getD 0 + 1) }
            networkAttempt := true }
      else
        { result := { m1 with
            status := some "failed"
            error := some ("HTTP " ++ toString st)
            failureCount := some (m1.failureCount.getD 0 + 1) }
          networkAttempt := true }

/- One iteration of the main loop of downloadFavicons: the exhaustion skip,
   then the recency skip, then the fetch path, in source order. -/
def processEntry (cfg : DlConfig) (env : Env) (e : Entry) (prev : Option Entry)
    (now : Int) (out : NetOutcome) : StepResult :=
  match prev with
  | some p =>
    if exhaustedCheck cfg p then
      { result := { p with status := some "skipped_max_retries" }, networkAttempt := false }
    else if recentCheck cfg p now then
      { result := { p with status := some "skipped_recent" }, networkAttempt := false }
    else fetchResult cfg env e prev now out
  | none => fetchResult cfg env e none now out

/- new Map(list.map(e => [e.url, e])): later pairs overwrite earlier ones,
   so a lookup returns the last matching element. -/
def mapGet (pairs : List (String × Entry)) (k : String) : Option Entry :=
  pairs.foldl (fun acc p => if p.1 == k then some p.2 else acc) none

def entryPairs (l : List Entry) : List (String × Entry) := l.map (fun e => (e.url, e))

/- saveProgress: the three-tier merge written at every checkpoint. -/
def saveProgress (inputEntries results previousState : List Entry) : List Entry :=
  inputEntries.map (fun entry =>
    match mapGet (entryPairs results) entry.url with
    | some r => r
    | none =>
      match mapGet (entryPairs previousState) entry.url with
      | some s => s
      | none => entry)

/- The whole acquisition run over targets = input.slice(0, MAX_REQUESTS):
   accumulate results, emit a checkpoint whenever the result count divides
   SAVE_BATCH_SIZE, and once more after the loop.  nowF and outF give the
   clock value and network outcome for the n-th processed entry. -/
def runAcqGo (cfg : DlConfig) (env : Env) (input prev : List Entry)
    (nowF : Nat → Int) (outF : Nat → NetOutcome) :
    List Entry → List Entry → List Entry × List (List Entry)
  | [], results => (results, [saveProgress input results prev])
  | e :: rest, results =>
    let r := (processEntry cfg env e (mapGet (entryPairs prev) e.url)
      (nowF results.length) (outF results.length)).result
    let results2 := results ++ [r]
    let next := runAcqGo cfg env input prev nowF outF rest results2
    (next.1,
      (if results2.length % cfg.saveBatchSize == 0
        then [saveProgress input results2 prev] else []) ++ next.2)

def runAcq (cfg : DlConfig) (env : Env) (input prev : List Entry)
    (nowF : Nat → Int) (outF : Nat → NetOutcome) : List Entry × List (List Entry) :=
  runAcqGo cfg env input prev nowF outF (input.take cfg.maxRequests) []

/- Run-to-run iteration of a single entry whose persisted record is carried
   forward: run k processes the entry against the record produced by run k-1. -/
def iterRuns (cfg : DlConfig) (env : Env) (e : Entry) (nows : Nat → Int)
    (outs : Nat → NetOutcome) (p : Entry) : Nat → Entry
  | 0 => p
  | k + 1 =>
    (processEntry cfg env e (some (iterRuns cfg env e nows outs p k))
      (nows k) (outs k)).result

/- One raster embedded in an ICO container: its width plus an abstract
   payload standing for the pixel data, so equal-width rasters stay
   distinguishable. -/
structure IcoImage where
  width : Nat
  payload : Nat := 0
  deriving Repr, DecidableEq

/- iconsWithMeta.sort((a, b) => b.width - a.width): JS Array.prototype.sort
   is stable, which over this comparator is exactly the following stable
   descending insertion sort. -/
def insertByWidthDesc (x : IcoImage) : List IcoImage → List IcoImage
  | [] => [x]
  | y :: ys => if x.width < y.width then y :: insertByWidthDesc x ys else x :: y :: ys

def sortByWidthDesc : List IcoImage → List IcoImage
  | [] => []
  | x :: xs => insertByWidthDesc x (sortByWidthDesc xs)

/- The leftmost raster of maximal width, as a reference point for the
   selection property. -/
def widestFirst : List IcoImage → Option IcoImage
  | [] => none
  | x :: xs =>
    match widestFirst xs with
    | none => some x
    | some m => if x.width < m.width then some m else some x

/- The isIco test of downloadFavicons.  Note the first disjunct reads
   metadata.contentType, i.e. the content type merged from the prior
   persisted record; the content-type header of the current response is
   only assigned to metadata after decoding. -/
def isIcoContent (env : Env) (storedContentType : Option String) (faviconUrl : String) : Bool :=
  (match storedContentType with
    | some ct => strIncludes ct "ico"
    | none => false)
  || (extnameLower (env.pathnameOf faviconUrl) == ".ico")

inductive DecodeChoice where
  | fromIco (img : IcoImage)
  | generic
  deriving Repr, DecidableEq

/- The 200-branch decoder selection: sharpsFromIco when the isIco test holds
   (icoParse = none models a throw inside sharpsFromIco, caught and logged),
   the widest parsed raster when there is one, the plain sharp(imageBuffer)
   pipeline otherwise.  respContentType is carried to record that the
   decision never reads it. -/
def decodeSelection (env : Env) (storedContentType respContentType : Option String)
    (faviconUrl : String) (icoParse : Option (List IcoImage)) : DecodeChoice :=
  if isIcoContent env storedContentType faviconUrl then
    match icoParse with
    | some icons =>
      if 0 < icons.length then
        match (sortByWidthDesc icons).head? with
        | some best => DecodeChoice.fromIco best
        | none => DecodeChoice.generic
      else DecodeChoice.generic
    | none => DecodeChoice.generic
  else DecodeChoice.generic

/- Tile compositor definitions. -/

def cellSizeOf (cfg : TilesConfig) : Nat := cfg.iconSize + cfg.borderSize * 2

def tileFilenameOf (i : Nat) : String := "tile_" ++ toString i ++ ".avif"

def iconPathOf (env : Env) (e : Entry) : String := "icons/" ++ iconRelPath env e.url

structure Comp where
  iconPath : String
  left : Nat
  top : Nat
  deriving Repr, DecidableEq

/- What the chunk loop does for the member at zero-based position j when its
   icon loads and resizes (ok), and what it pushes to composites. -/
def memberComp (cfg : TilesConfig) (env : Env) (ok : String → Bool) (j : Nat)
    (e : Entry) : Option Comp :=
  if ok (iconPathOf env e) then
    some { iconPath := iconPathOf env e
           left := (j % cfg.gridSize) * cellSizeOf cfg + cfg.borderSize
           top := (j / cfg.gridSize) * cellSizeOf cfg + cfg.borderSize }
  else none

def memberEntry (cfg : TilesConfig) (env : Env) (fname : String) (ok : String → Bool)
    (j : Nat) (e : Entry) : Entry :=
  if ok (iconPathOf env e) then
    { e with tile := some { file := fname, index := j, row := j / cfg.gridSize,
                            col := j % cfg.gridSize } }
  else e

/- The member loop of generateOneTile: push the domain unconditionally,
   compute the cell geometry, push a composite and record entry.tile only
   when the resize pipeline succeeds (a failure hits continue, skipping the
   tile assignment).  ok tells whether sharp(iconPath)...toBuffer() succeeds. -/
def tileLoop (cfg : TilesConfig) (env : Env) (fname : String) (ok : String → Bool) :
    Nat → List Entry → List Comp × List String × List Entry
  | _, [] => ([], [], [])
  | j, e :: rest =>
    let next := tileLoop cfg env fname ok (j + 1) rest
    let domain := getDomain env e.url
    let col := j % cfg.gridSize
    let row := j / cfg.gridSize
    let left := col * cellSizeOf cfg + cfg.borderSize
    let top := row * cellSizeOf cfg + cfg.borderSize
    if ok (iconPathOf env e) then
      ({ iconPath := iconPathOf env e, left := left, top := top } :: next.1,
        domain :: next.2.1,
        { e with tile := some { file := fname, index := j, row := row, col := col } }
          :: next.2.2)
    else
      (next.1, domain :: next.2.1, e :: next.2.2)

/- What generateOneTile finds on disk for one tile before deciding:
   tileMtime none models fs.stat(tilePath) throwing (missing file), sidecar
   none models the sidecar read or JSON.parse throwing. -/
structure TileDiskState where
  tileMtime : Option Nat
  sidecar : Option (List String)
  sidecarExists : Bool
  deriving Repr, DecidableEq

/- The shouldGenerate decision of generateOneTile, in source order: the
   force flag, the last-existing-tile override, a missing tile image, a
   missing or differing sidecar, then the per-icon mtime staleness scan. -/
def shouldGenerateTile (cfg : TilesConfig) (env : Env) (mt : String → Option Nat)
    (tileIndex lastExistingTileIndex : Nat) (disk : TileDiskState)
    (domains : List String) (chunk : List Entry) : Bool :=
  if cfg.forceRegen then true
  else if tileIndex == lastExistingTileIndex then true
  else
    match disk.tileMtime with
    | none => true
    | some tmt =>
      let jsonChanged : Bool :=
        match disk.sidecar with
        | none => true
        | some existing => existing != domains
      if jsonChanged then true
      else
        chunk.any (fun e =>
          match mt (iconRelPath env e.url) with
          | some im => (im != 0) && decide (tmt < im)
          | none => false)

/- shouldGenerateJson: the sidecar is written when the image is, and also
   when fs.access says it is missing. -/
def shouldGenerateJsonTile (disk : TileDiskState) (shouldGen : Bool) : Bool :=
  shouldGen || !disk.sidecarExists

/- C3 as the specification states it: regenerate iff force, or the
   last-produced tile, or a missing or unreadable artifact or sidecar, or a
   changed domain sequence, or some member icon strictly newer than the tile
   file. -/
def regenSpecC3 (cfg : TilesConfig) (env : Env) (mt : String → Option Nat)
    (tileIndex lastExistingTileIndex : Nat) (disk : TileDiskState)
    (domains : List String) (chunk : List Entry) : Prop :=
  cfg.forceRegen = true
  ∨ tileIndex = lastExistingTileIndex
  ∨ disk.tileMtime = none
  ∨ disk.sidecar = none
  ∨ (∃ ds, disk.sidecar = some ds ∧ ds ≠ domains)
  ∨ (∃ tmt, disk.tileMtime = some tmt ∧
      ∃ e ∈ chunk, ∃ im, mt (iconRelPath env e.url) = some im ∧ tmt < im)

/- The chunking loop: slice(i, i + chunkSize) for i = 0, k, 2k, ... -/
def chunksGo (k : Nat) : List α → List (List α)
  | [] => []
  | x :: xs => (x :: xs.take k) :: chunksGo k (xs.drop k)
termination_by l => l.length
decreasing_by simp only [List.length_drop, List.length_cons]; omega

def chunksOf : Nat → List α → List (List α)
  | 0, _ => []
  | k + 1, l => chunksGo k l

/- The eligibility filter of generateTiles: an accepted status, a truthy
   mtime-index hit for the icon path, and a truthy rank. -/
def isEligible (env : Env) (mt : String → Option Nat) (e : Entry) : Bool :=
  (e.status == some "downloaded" || e.status == some "not_modified"
      || e.status == some "skipped_recent")
    && truthyNat (mt (iconRelPath env e.url))
    && truthyNat e.rank

def rk (e : Entry) : Nat := e.rank.getD 0

/- .sort((a, b) => a.rank - b.rank): a stable ascending sort on rank. -/
def insertByRank (x : Entry) : List Entry → List Entry
  | [] => [x]
  | y :: ys => if rk y < rk x then y :: insertByRank x ys else x :: y :: ys

def sortByRank : List Entry → List Entry
  | [] => []
  | x :: xs => insertByRank x (sortByRank xs)

def validEntriesOf (env : Env) (mt : String → Option Nat) (entries : List Entry) :
    List Entry :=
  sortByRank (entries.filter (isEligible env mt))

/- The per-chunk pass of the main loop: chunk at array index idx gets tile
   index idx + 1 and filename tile_(idx+1).avif. -/
def processChunksGo (cfg : TilesConfig) (env : Env) (ok : String → Bool) :
    Nat → List (List Entry) → List (List Comp × List String × List Entry)
  | _, [] => []
  | i, c :: cs =>
    tileLoop cfg env (tileFilenameOf (i + 1)) ok 0 c
      :: processChunksGo cfg env ok (i + 1) cs

def processChunks (cfg : TilesConfig) (env : Env) (ok : String → Bool)
    (chunks : List (List Entry)) : List (List Comp × List String × List Entry) :=
  processChunksGo cfg env ok 0 chunks

/- The domain lists the run leaves in the tile sidecars, in tile order. -/
def tileSidecars (cfg : TilesConfig) (env : Env) (mt : String → Option Nat)
    (ok : String → Bool) (entries : List Entry) : List (List String) :=
  (processChunks cfg env ok
    (chunksOf (cfg.gridSize * cfg.gridSize) (validEntriesOf env mt entries))).map
    (fun t => t.2.1)

/- Concrete data for witnesses and counterexamples. -/

def envEx : Env :=
  { hostname := fun s => s
    md5hex := fun s => s ++ "0000"
    resolveFallbackFavicon := fun _ => none
    pathnameOf := fun s => s }

def tcfgEx : TilesConfig := {}

def entryA : Entry :=
  { url := "a.com", rank := some 1, status := some "downloaded" }

def entryB : Entry :=
  { url := "b.com", rank := some 2, status := some "not_modified" }

def entryC : Entry :=
  { url := "c.com", rank := some 3, status := some "failed" }

def mtEx : String → Option Nat := fun p =>
  if p == iconRelPath envEx "a.com" then some 5
  else if p == iconRelPath envEx "b.com" then some 7
  else none

/- An exhausted record whose last check is recent (1 hour before now). -/
def pExhausted : Entry :=
  { url := "https://ex.com/", status := some "failed", failureCount := some 3
    lastCheckTime := some 1000000, etag := some "W-1" }

def eInputEx : Entry :=
  { url := "https://ex.com/", rank := some 9, favicon := some "https://ex.com/favicon.ico" }

/- A healthy record checked one hour ago, prior status downloaded. -/
def pRecent : Entry :=
  { url := "https://r.com/", status := some "downloaded", failureCount := some 1
    lastCheckTime := some 1000000, etag := some "W-2" }

def eInputR : Entry :=
  { url := "https://r.com/", rank := some 4, favicon := some "https://r.com/favicon.png" }

/- A record one failure below the cap, old enough to refetch. -/
def pRetrying : Entry :=
  { url := "https://r.com/", status := some "failed", failureCount := some 1 }

/- A 200 response whose decode or write pipeline throws. -/
def out200fail : NetOutcome :=
  NetOutcome.resp 200 none none none (some "image/png") (some "unsupported image")

/- A tiny acquisition run used to exercise the checkpoint theorem. -/
def runEx : List Entry × List (List Entry) :=
  runAcq DLCONFIG envEx [eInputR] [] (fun _ => 0)
    (fun _ => NetOutcome.resp 304 none none none none none)

def cpEx : List Entry := saveProgress [eInputR] runEx.1 []

/- Grid of side 1 keeps the placement witness small. -/
def tcfgSmall : TilesConfig := { gridSize := 1 }

/- A chunk member whose icon fails to resize keeps no tile assignment. -/
def eNoTile : Entry := { url := "https://n.com/" }

/- Theorems.  Helper lemmas first, then one theorem per claim. -/

theorem processEntry_exhausted (cfg : DlConfig) (env : Env) (e q : Entry)
    (now : Int) (out : NetOutcome) (n : Nat)
    (hfc : q.failureCount = some n) (hcap : cfg.maxRetries ≤ n) (hpos : 1 ≤ n) :
    processEntry cfg env e (some q) now out
      = { result := { q with status := some "skipped_max_retries" },
          networkAttempt := false } := by
  have hb : exhaustedCheck cfg q = true := by
    simp only [exhaustedCheck, truthyNat, hfc, Option.getD_some, Bool.and_eq_true,
      bne_iff_ne, ne_eq, decide_eq_true_eq]
    omega
  simp [processEntry, hb]

/-- Claim C1: an entry whose prior persisted failureCount has reached the retry
cap is skipped with status skipped_max_retries and no network attempt, before
the recency test can reclassify it, and — its record being carried forward
unchanged apart from the status — every later run skips it the same way, so
it never issues another network request. -/
theorem C1_retry_cap_closure (cfg : DlConfig) (env : Env) (e : Entry)
    (nows : Nat → Int) (outs : Nat → NetOutcome) (p : Entry) (n : Nat)
    (hfc : p.failureCount = some n) (hcap : cfg.maxRetries ≤ n) (hpos : 1 ≤ n) :
    ∀ k : Nat,
      (iterRuns cfg env e nows outs p k).failureCount = some n
      ∧ (processEntry cfg env e (some (iterRuns cfg env e nows outs p k))
          (nows k) (outs k)).networkAttempt = false
      ∧ (processEntry cfg env e (some (iterRuns cfg env e nows outs p k))
          (nows k) (outs k)).result
        = { iterRuns cfg env e nows outs p k with status := some "skipped_max_retries" } := by
  have hall : ∀ k : Nat, (iterRuns cfg env e nows outs p k).failureCount = some n := by
    intro k
    induction k with
    | zero => simpa [iterRuns] using hfc
    | succ k ih =>
      have hstep := processEntry_exhausted cfg env e
        (iterRuns cfg env e nows outs p k) (nows k) (outs k) n ih hcap hpos
      simp [iterRuns, hstep]
      exact ih
  intro k
  have hstep := processEntry_exhausted cfg env e
    (iterRuns cfg env e nows outs p k) (nows k) (outs k) n (hall k) hcap hpos
  exact ⟨hall k, by simp [hstep], by simp [hstep]⟩

theorem C1_retry_cap_closure_witness :
    recentCheck DLCONFIG pExhausted 4600000 = true
    ∧ (processEntry DLCONFIG envEx eInputEx
        (some (iterRuns DLCONFIG envEx eInputEx (fun _ => 4600000)
          (fun _ => NetOutcome.fault "unreachable") pExhausted 2))
        4600000 (NetOutcome.fault "unreachable")).networkAttempt = false := by
  constructor
  · decide
  · exact (C1_retry_cap_closure DLCONFIG envEx eInputEx (fun _ => 4600000)
      (fun _ => NetOutcome.fault "unreachable") pExhausted 3 rfl (by decide) (by decide) 2).2.1

theorem processEntry_recent (cfg : DlConfig) (env : Env) (e p : Entry)
    (now : Int) (out : NetOutcome)
    (hfc : p.failureCount.getD 0 < cfg.maxRetries)
    (t : Int) (ht : p.lastCheckTime = some t) (hw : now - t < cfg.skipDownloadPeriodMs) :
    processEntry cfg env e (some p) now out
      = { result := { p with status := some "skipped_recent" },
          networkAttempt := false } := by
  have hex : exhaustedCheck cfg p = false := by
    have hdec : decide (cfg.maxRetries ≤ p.failureCount.getD 0) = false := by
      simp only [decide_eq_false_iff_not]
      omega
    simp [exhaustedCheck, hdec]
  have hrec : recentCheck cfg p now = true := by
    simp [recentCheck, ht, hw]
  simp [processEntry, hex, hrec]

theorem C8_skip_recent_counterexample :
    pRecent.failureCount.getD 0 < DLCONFIG.maxRetries
    ∧ recentCheck DLCONFIG pRecent 4600000 = true
    ∧ (processEntry DLCONFIG envEx eInputR (some pRecent) 4600000
        (NetOutcome.fault "unreachable")).networkAttempt = false
    ∧ (processEntry DLCONFIG envEx eInputR (some pRecent) 4600000
        (NetOutcome.fault "unreachable")).result.status = some "skipped_recent"
    ∧ pRecent.status = some "downloaded" := by
  refine ⟨by decide, by decide, by decide, by decide, by decide⟩

/-- Claim C8, amended: an entry below the retry cap whose last check falls
within the skip window is honoured with no network call, its status is set to
skipped_recent (not left unchanged), and every other persisted field is
carried forward as-is. -/
theorem C8_skip_recent_amended (cfg : DlConfig) (env : Env) (e p : Entry)
    (now : Int) (out : NetOutcome)
    (hfc : p.failureCount.getD 0 < cfg.maxRetries)
    (t : Int) (ht : p.lastCheckTime = some t) (hw : now - t < cfg.skipDownloadPeriodMs) :
    (processEntry cfg env e (some p) now out).networkAttempt = false
    ∧ (processEntry cfg env e (some p) now out).result
        = { p with status := some "skipped_recent" } := by
  have h := processEntry_recent cfg env e p now out hfc t ht hw
  exact ⟨by simp [h], by simp [h]⟩

theorem C8_skip_recent_witness :
    (processEntry DLCONFIG envEx eInputR (some pRecent) 4600000
        (NetOutcome.fault "unreachable")).networkAttempt = false
    ∧ (processEntry DLCONFIG envEx eInputR (some pRecent) 4600000
        (NetOutcome.fault "unreachable")).result
      = { pRecent with status := some "skipped_recent" } :=
  C8_skip_recent_amended DLCONFIG envEx eInputR pRecent 4600000
    (NetOutcome.fault "unreachable") (by decide) 1000000 rfl (by decide)

theorem C5_failure_count_counterexample :
    (processEntry DLCONFIG envEx eInputR (some pRetrying) 0 out200fail).result.httpStatus
        = some 200
    ∧ (processEntry DLCONFIG envEx eInputR (some pRetrying) 0 out200fail).result.failureCount
        = some 2
    ∧ (processEntry DLCONFIG envEx eInputR (some pRetrying) 0 out200fail).result.failureCount
        ≠ some 0 := by
  refine ⟨by decide, by decide, by decide⟩

/-- Claim C5, amended: failureCount is reset to 0 on a 304, or on a 200 whose
decode-and-write pipeline succeeds; it becomes the merged prior count plus one
on any other HTTP status, on a transport error or timeout, on a 200 whose
decode or write fails, and when no favicon URL can be resolved; both skip
decisions carry the prior count forward unchanged; hence it never decreases
except by the explicit reset on success. -/
theorem C5_failure_count_amended (cfg : DlConfig) (env : Env) (e : Entry)
    (prev : Option Entry) (now : Int) (out : NetOutcome) :
    (∀ p, prev = some p → exhaustedCheck cfg p = true →
      (processEntry cfg env e prev now out).result.failureCount = p.failureCount)
    ∧ (∀ p, prev = some p → exhaustedCheck cfg p = false → recentCheck cfg p now = true →
      (processEntry cfg env e prev now out).result.failureCount = p.failureCount)
    ∧ (resolvedFavicon env e = none →
      (fetchResult cfg env e prev now out).result.failureCount
        = some ((initialMetadata e prev).failureCount.getD 0 + 1))
    ∧ (∀ et lm cl ct pe, resolvedFavicon env e ≠ none →
        out = NetOutcome.resp 304 et lm cl ct pe →
      (fetchResult cfg env e prev now out).result.failureCount = some 0)
    ∧ (∀ et lm cl ct, resolvedFavicon env e ≠ none →
        out = NetOutcome.resp 200 et lm cl ct none →
      (fetchResult cfg env e prev now out).result.failureCount = some 0)
    ∧ (∀ et lm cl ct msg, resolvedFavicon env e ≠ none →
        out = NetOutcome.resp 200 et lm cl ct (some msg) →
      (fetchResult cfg env e prev now out).result.failureCount
        = some ((initialMetadata e prev).failureCount.getD 0 + 1))
    ∧ (∀ st et lm cl ct pe, resolvedFavicon env e ≠ none → st ≠ 200 → st ≠ 304 →
        out = NetOutcome.resp st et lm cl ct pe →
      (fetchResult cfg env e prev now out).result.failureCount
        = some ((initialMetadata e prev).failureCount.getD 0 + 1))
    ∧ (∀ msg, resolvedFavicon env e ≠ none → out = NetOutcome.fault msg →
      (fetchResult cfg env e prev now out).result.failureCount
        = some ((initialMetadata e prev).failureCount.getD 0 + 1))
    ∧ ((processEntry cfg env e prev now out).result.failureCount = some 0
      ∨ (∃ p, prev = some p
          ∧ (processEntry cfg env e prev now out).result.failureCount = p.failureCount)
      ∨ (processEntry cfg env e prev now out).result.failureCount
          = some ((initialMetadata e prev).failureCount.getD 0 + 1)) := by
  have hfetch : ∀ res : StepResult, res = fetchResult cfg env e prev now out →
      (res.result.failureCount = some 0
        ∨ res.result.failureCount
            = some ((initialMetadata e prev).failureCount.getD 0 + 1)) := by
    intro res hres
    subst hres
    unfold fetchResult
    cases hfav : resolvedFavicon env e with
    | none => simp
    | some f =>
      cases out with
      | fault msg => simp
      | resp st et lm cl ct pe =>
        by_cases h304 : st == 304
        · simp [h304]
        · by_cases h200 : st == 200
          · cases pe with
            | none => simp [h304, h200]
            | some msg => simp [h304, h200]
          · simp [h304, h200]
  refine ⟨?_, ?_, ?_, ?_, ?_, ?_, ?_, ?_, ?_⟩
  · intro p hp hex
    subst hp
    simp [processEntry, hex]
  · intro p hp hex hrec
    subst hp
    simp [processEntry, hex, hrec]
  · intro hfav
    unfold fetchResult
    simp [hfav]
  · intro et lm cl ct pe hfav hout
    subst hout
    unfold fetchResult
    cases hf : resolvedFavicon env e with
    | none => exact absurd hf hfav
    | some f => simp
  · intro et lm cl ct hfav hout
    subst hout
    unfold fetchResult
    cases hf : resolvedFavicon env e with
    | none => exact absurd hf hfav
    | some f => simp
  · intro et lm cl ct msg hfav hout
    subst hout
    unfold fetchResult
    cases hf : resolvedFavicon env e with
    | none => exact absurd hf hfav
    | some f => simp
  · intro st et lm cl ct pe hfav h200 h304 hout
    subst hout
    unfold fetchResult
    cases hf : resolvedFavicon env e with
    | none => exact absurd hf hfav
    | some f =>
      have hb304 : (st == 304) = false := by simpa using h304
      have hb200 : (st == 200) = false := by simpa using h200
      simp [hb304, hb200]
  · intro msg hfav hout
    subst hout
    unfold fetchResult
    cases hf : resolvedFavicon env e with
    | none => exact absurd hf hfav
    | some f => simp
  · cases hprev : prev with
    | none =>
      have h := hfetch (fetchResult cfg env e none now out) (by rw [hprev])
      rcases h with h | h
      · left
        simpa [processEntry, hprev] using h
      · right; right
        simpa [processEntry, hprev] using h
    | some p =>
      by_cases hex : exhaustedCheck cfg p
      · right; left
        exact ⟨p, rfl, by simp [processEntry, hex]⟩
      · by_cases hrec : recentCheck cfg p now
        · right; left
          refine ⟨p, rfl, ?_⟩
          simp [processEntry, hex, hrec]
        · have h := hfetch (fetchResult cfg env e (some p) now out) (by rw [hprev])
          rcases h with h | h
          · left
            simpa [processEntry, hex, hrec, hprev] using h
          · right; right
            simpa [processEntry, hex, hrec, hprev] using h

theorem C5_failure_count_witness :
    (fetchResult DLCONFIG envEx eInputR (some pRetrying) 0
        (NetOutcome.resp 304 none none none none none)).result.failureCount = some 0 :=
  (C5_failure_count_amended DLCONFIG envEx eInputR (some pRetrying) 0
      (NetOutcome.resp 304 none none none none none)).2.2.2.1
    none none none none none (by decide) rfl

theorem mapGet_foldl (u : String) (pairs : List (String × Entry)) :
    ∀ acc : Option Entry,
      pairs.foldl (fun a p => if p.1 == u then some p.2 else a) acc
        = match pairs.reverse.find? (fun p => p.1 == u) with
          | some p => some p.2
          | none => acc := by
  induction pairs with
  | nil => intro acc; simp
  | cons q ps ih =>
    intro acc
    rw [List.foldl_cons, ih]
    rw [List.reverse_cons, List.find?_append]
    cases h : ps.reverse.find? (fun p => p.1 == u) with
    | some p => rfl
    | none =>
      simp only [Option.none_or]
      cases hq : q.1 == u with
      | true => simp [List.find?_cons_of_pos, hq]
      | false => simp [List.find?_cons_of_neg, hq]

theorem mapGet_eq_findRev (l : List Entry) (u : String) :
    mapGet (entryPairs l) u = l.reverse.find? (fun r => r.url == u) := by
  unfold mapGet entryPairs
  rw [mapGet_foldl]
  rw [← List.map_reverse, List.find?_map]
  simp only [Function.comp_def]
  cases h : l.reverse.find? (fun r => r.url == u) with
  | some r => rfl
  | none => rfl

theorem saveProgress_spec (input results prev : List Entry) :
    (saveProgress input results prev).length = input.length
    ∧ ∀ n (hn : n < input.length),
        (saveProgress input results prev)[n]?
          = some (
            match results.reverse.find? (fun r => r.url == (input.get ⟨n, hn⟩).url) with
            | some r => r
            | none =>
              match prev.reverse.find? (fun s => s.url == (input.get ⟨n, hn⟩).url) with
              | some s => s
              | none => input.get ⟨n, hn⟩) := by
  constructor
  · simp [saveProgress]
  · intro n hn
    unfold saveProgress
    rw [List.getElem?_map, List.getElem?_eq_getElem hn]
    simp only [Option.map_some', List.get_eq_getElem]
    rw [mapGet_eq_findRev, mapGet_eq_findRev]

theorem runAcqGo_results_eq (cfg : DlConfig) (env : Env) (input prev : List Entry)
    (nowF : Nat → Int) (outF : Nat → NetOutcome) :
    ∀ rest results : List Entry, ∃ suffix,
      (runAcqGo cfg env input prev nowF outF rest results).1 = results ++ suffix := by
  intro rest
  induction rest with
  | nil => intro results; exact ⟨[], by simp [runAcqGo]⟩
  | cons e rest ih =>
    intro results
    obtain ⟨s, hs⟩ := ih (results ++
      [(processEntry cfg env e (mapGet (entryPairs prev) e.url)
        (nowF results.length) (outF results.length)).result])
    refine ⟨(processEntry cfg env e (mapGet (entryPairs prev) e.url)
        (nowF results.length) (outF results.length)).result :: s, ?_⟩
    rw [runAcqGo]
    simp only [hs, List.append_assoc, List.singleton_append]

theorem runAcqGo_cp_mem (cfg : DlConfig) (env : Env) (input prev : List Entry)
    (nowF : Nat → Int) (outF : Nat → NetOutcome) :
    ∀ (rest results out : List Entry),
      out ∈ (runAcqGo cfg env input prev nowF outF rest results).2 →
      ∃ k, out = saveProgress input
        ((runAcqGo cfg env input prev nowF outF rest results).1.take k) prev := by
  intro rest
  induction rest with
  | nil =>
    intro results out hout
    simp only [runAcqGo, List.mem_singleton] at hout
    exact ⟨results.length, by simpa [runAcqGo, List.take_length] using hout⟩
  | cons e rest ih =>
    intro results out hout
    rw [runAcqGo] at hout
    rcases List.mem_append.mp hout with hpre | hnext
    · by_cases hcond :
        ((results ++ [(processEntry cfg env e (mapGet (entryPairs prev) e.url)
            (nowF results.length) (outF results.length)).result]).length
          % cfg.saveBatchSize == 0)
      · rw [if_pos hcond, List.mem_singleton] at hpre
        obtain ⟨s, hs⟩ := runAcqGo_results_eq cfg env input prev nowF outF rest
          (results ++ [(processEntry cfg env e (mapGet (entryPairs prev) e.url)
            (nowF results.length) (outF results.length)).result])
        refine ⟨(results ++ [(processEntry cfg env e (mapGet (entryPairs prev) e.url)
            (nowF results.length) (outF results.length)).result]).length, ?_⟩
        rw [runAcqGo]
        simp only [hs, List.take_left]
        exact hpre
      · rw [if_neg hcond] at hpre
        simp at hpre
    · obtain ⟨k, hk⟩ := ih
        (results ++ [(processEntry cfg env e (mapGet (entryPairs prev) e.url)
          (nowF results.length) (outF results.length)).result]) out hnext
      refine ⟨k, ?_⟩
      rw [runAcqGo]
      exact hk

theorem runAcqGo_cp_ne_nil (cfg : DlConfig) (env : Env) (input prev : List Entry)
    (nowF : Nat → Int) (outF : Nat → NetOutcome) :
    ∀ rest results : List Entry,
      (runAcqGo cfg env input prev nowF outF rest results).2 ≠ [] := by
  intro rest
  induction rest with
  | nil => intro results; simp [runAcqGo]
  | cons e rest ih =>
    intro results h
    rw [runAcqGo] at h
    exact ih _ (List.append_eq_nil.mp h).2

theorem runAcqGo_cp_last (cfg : DlConfig) (env : Env) (input prev : List Entry)
    (nowF : Nat → Int) (outF : Nat → NetOutcome) :
    ∀ rest results : List Entry,
      (runAcqGo cfg env input prev nowF outF rest results).2.getLast?
        = some (saveProgress input (runAcqGo cfg env input prev nowF outF rest results).1 prev) := by
  intro rest
  induction rest with
  | nil => intro results; simp [runAcqGo]
  | cons e rest ih =>
    intro results
    rw [runAcqGo]
    simp only [List.getLast?_append, ih]
    rfl

/-- Claim C2: every checkpoint the run writes (each batch boundary and the
final save) is the full-length catalogue: one record per original input entry,
in input order, each record being this run's freshest result for that url so
far when one exists, else the last prior persisted record for that url, else
the bare input entry; the final checkpoint covers all results of the run. -/
theorem C2_checkpoint_full_catalogue (cfg : DlConfig) (env : Env)
    (input prev : List Entry) (nowF : Nat → Int) (outF : Nat → NetOutcome)
    (out : List Entry) (hout : out ∈ (runAcq cfg env input prev nowF outF).2) :
    (∃ rs, (∃ k, rs = (runAcq cfg env input prev nowF outF).1.take k)
      ∧ out = saveProgress input rs prev
      ∧ out.length = input.length
      ∧ ∀ n (hn : n < input.length),
          out[n]? = some (
            match rs.reverse.find? (fun r => r.url == (input.get ⟨n, hn⟩).url) with
            | some r => r
            | none =>
              match prev.reverse.find? (fun s => s.url == (input.get ⟨n, hn⟩).url) with
              | some s => s
              | none => input.get ⟨n, hn⟩))
    ∧ (runAcq cfg env input prev nowF outF).2.getLast?
        = some (saveProgress input (runAcq cfg env input prev nowF outF).1 prev) := by
  constructor
  · obtain ⟨k, hk⟩ := runAcqGo_cp_mem cfg env input prev nowF outF
      (input.take cfg.maxRequests) [] out hout
    refine ⟨(runAcq cfg env input prev nowF outF).1.take k, ⟨k, rfl⟩, hk, ?_, ?_⟩
    · rw [hk]
      exact (saveProgress_spec input _ prev).1
    · intro n hn
      rw [hk]
      exact (saveProgress_spec input _ prev).2 n hn
  · exact runAcqGo_cp_last cfg env input prev nowF outF (input.take cfg.maxRequests) []

theorem C2_checkpoint_full_catalogue_witness :
    cpEx ∈ runEx.2 ∧ cpEx.length = 1 := by
  have hmem : cpEx ∈ runEx.2 := by
    have h : runEx.2 = [cpEx] := rfl
    rw [h]
    exact List.mem_singleton.mpr rfl
  obtain ⟨⟨rs, _, heq, hlen, _⟩, _⟩ :=
    C2_checkpoint_full_catalogue DLCONFIG envEx [eInputR] [] (fun _ => 0)
      (fun _ => NetOutcome.resp 304 none none none none none) cpEx hmem
  exact ⟨hmem, by simpa using hlen⟩

theorem staleScan_iff (cfg : TilesConfig) (env : Env) (mt : String → Option Nat)
    (tmt : Nat) (chunk : List Entry) :
    (chunk.any (fun e =>
        match mt (iconRelPath env e.url) with
        | some im => (im != 0) && decide (tmt < im)
        | none => false) = true)
      ↔ ∃ e ∈ chunk, ∃ im, mt (iconRelPath env e.url) = some im ∧ tmt < im := by
  rw [List.any_eq_true]
  constructor
  · rintro ⟨e, he, hb⟩
    refine ⟨e, he, ?_⟩
    cases h : mt (iconRelPath env e.url) with
    | none => rw [h] at hb; exact absurd hb (by simp)
    | some im =>
      rw [h] at hb
      simp only [Bool.and_eq_true, bne_iff_ne, ne_eq, decide_eq_true_eq] at hb
      exact ⟨im, rfl, hb.2⟩
  · rintro ⟨e, he, im, him, hlt⟩
    refine ⟨e, he, ?_⟩
    rw [him]
    simp only [Bool.and_eq_true, bne_iff_ne, ne_eq, decide_eq_true_eq]
    exact ⟨by omega, hlt⟩

/-- Claim C3: a tile image is regenerated exactly when the force flag is set,
or its index is the highest tile index present on disk at run start, or the
tile image or its sidecar is missing or unreadable, or the sidecar's stored
domain sequence differs from the freshly computed one, or some chunk member
icon has an mtime-index timestamp strictly newer than the tile file's mtime;
otherwise the tile file is left untouched. -/
theorem C3_regeneration_condition (cfg : TilesConfig) (env : Env)
    (mt : String → Option Nat) (tileIndex lastExistingTileIndex : Nat)
    (disk : TileDiskState) (domains : List String) (chunk : List Entry) :
    shouldGenerateTile cfg env mt tileIndex lastExistingTileIndex disk domains chunk = true
      ↔ regenSpecC3 cfg env mt tileIndex lastExistingTileIndex disk domains chunk := by
  unfold shouldGenerateTile regenSpecC3
  by_cases hf : cfg.forceRegen
  · simp [hf]
  · simp only [hf, if_false, Bool.false_eq_true, false_or]
    by_cases hl : tileIndex = lastExistingTileIndex
    · simp [hl]
    · have hbeq : (tileIndex == lastExistingTileIndex) = false := by
        simp [hl]
      simp only [hbeq, if_false, hl, false_or, Bool.false_eq_true]
      cases hmt : disk.tileMtime with
      | none => simp
      | some tmt =>
        simp only [Option.some_ne_none, false_or, reduceCtorEq]
        cases hsc : disk.sidecar with
        | none => simp
        | some ds =>
          simp only [Option.some_ne_none, false_or, reduceCtorEq]
          by_cases hd : ds = domains
          · have hb : (ds != domains) = false := by simp [hd]
            simp only [hb, Bool.false_eq_true, if_false]
            rw [staleScan_iff cfg env mt tmt chunk]
            constructor
            · intro h
              right
              exact ⟨tmt, rfl, h⟩
            · rintro (⟨ds2, hds2, hne⟩ | ⟨tmt2, htm2, h⟩)
              · injection hds2 with h2
                subst h2
                exact absurd hd hne
              · injection htm2 with h3
                subst h3
                exact h
          · have hb : (ds != domains) = true := by simp [hd]
            simp only [hb, if_true]
            constructor
            · intro _
              left
              exact ⟨ds, rfl, hd⟩
            · intro _
              trivial

theorem chunksGo_flatten (k : Nat) : ∀ l : List α, (chunksGo k l).flatten = l
  | [] => by simp [chunksGo]
  | x :: xs => by
    rw [chunksGo, List.flatten_cons, chunksGo_flatten k (xs.drop k)]
    simp [List.take_append_drop]
termination_by l => l.length
decreasing_by simp only [List.length_drop, List.length_cons]; omega

theorem chunksOf_flatten (k : Nat) (hk : 0 < k) (l : List α) :
    (chunksOf k l).flatten = l := by
  cases k with
  | zero => omega
  | succ m => exact chunksGo_flatten m l

theorem chunksGo_getElem? (k : Nat) :
    ∀ (i : Nat) (l : List α),
      (chunksGo k l)[i]? =
        if l.length ≤ i * (k + 1) then none
        else some ((l.drop (i * (k + 1))).take (k + 1)) := by
  intro i
  induction i with
  | zero =>
    intro l
    cases l with
    | nil => simp [chunksGo]
    | cons x xs => simp [chunksGo]
  | succ i ih =>
    intro l
    cases l with
    | nil => simp [chunksGo]
    | cons x xs =>
      rw [chunksGo]
      simp only [List.getElem?_cons_succ]
      rw [ih (xs.drop k)]
      have hsplit : (i + 1) * (k + 1) = i * (k + 1) + k + 1 := by ring
      rw [hsplit]
      by_cases h : (x :: xs).length ≤ i * (k + 1) + k + 1
      · rw [if_pos h]
        rw [if_pos]
        simp only [List.length_drop]
        simp only [List.length_cons] at h
        omega
      · rw [if_neg h]
        rw [if_neg]
        · have harith : k + i * (k + 1) = i * (k + 1) + k := by omega
          rw [List.drop_drop, harith]
          rfl
        · simp only [List.length_drop]
          simp only [List.length_cons] at h
          omega

theorem chunksOf_getElem? (k : Nat) (hk : 0 < k) (i : Nat) (l : List α) :
    (chunksOf k l)[i]? =
      if l.length ≤ i * k then none else some ((l.drop (i * k)).take k) := by
  cases k with
  | zero => omega
  | succ m => exact chunksGo_getElem? m i l

theorem chunksOf_member (k : Nat) (hk : 0 < k) (l : List α) (i j : Nat) (hj : j < k) :
    Option.bind ((chunksOf k l)[i]?) (fun ch => ch[j]?) = l[i * k + j]? := by
  rw [chunksOf_getElem? k hk i l]
  by_cases h : l.length ≤ i * k
  · rw [if_pos h]
    simp only [Option.none_bind]
    exact (List.getElem?_eq_none (by omega)).symm
  · rw [if_neg h]
    simp only [Option.some_bind]
    rw [List.getElem?_take, if_pos hj, List.getElem?_drop]

theorem tileLoop_domains (cfg : TilesConfig) (env : Env) (fname : String)
    (ok : String → Bool) :
    ∀ (j : Nat) (chunk : List Entry),
      (tileLoop cfg env fname ok j chunk).2.1
        = chunk.map (fun e => getDomain env e.url) := by
  intro j chunk
  induction chunk generalizing j with
  | nil => simp [tileLoop]
  | cons e rest ih =>
    rw [tileLoop]
    by_cases h : ok (iconPathOf env e)
    · simp only [h, if_true, List.map_cons]
      rw [ih]
    · simp only [h, Bool.false_eq_true, if_false, List.map_cons]
      rw [ih]

theorem tileLoop_comps (cfg : TilesConfig) (env : Env) (fname : String)
    (ok : String → Bool) :
    ∀ (j : Nat) (chunk : List Entry),
      (tileLoop cfg env fname ok j chunk).1
        = (chunk.enumFrom j).filterMap (fun p => memberComp cfg env ok p.1 p.2) := by
  intro j chunk
  induction chunk generalizing j with
  | nil => simp [tileLoop]
  | cons e rest ih =>
    rw [tileLoop, List.enumFrom_cons]
    by_cases h : ok (iconPathOf env e)
    · have hm : memberComp cfg env ok j e
          = some { iconPath := iconPathOf env e
                   left := j % cfg.gridSize * cellSizeOf cfg + cfg.borderSize
                   top := j / cfg.gridSize * cellSizeOf cfg + cfg.borderSize } := by
        simp [memberComp, h]
      simp only [h, if_true, List.filterMap_cons, hm]
      rw [ih]
    · have hm : memberComp cfg env ok j e = none := by
        simp [memberComp, h]
      simp only [h, Bool.false_eq_true, if_false, List.filterMap_cons, hm]
      rw [ih]

theorem tileLoop_entries (cfg : TilesConfig) (env : Env) (fname : String)
    (ok : String → Bool) :
    ∀ (j : Nat) (chunk : List Entry),
      (tileLoop cfg env fname ok j chunk).2.2
        = (chunk.enumFrom j).map (fun p => memberEntry cfg env fname ok p.1 p.2) := by
  intro j chunk
  induction chunk generalizing j with
  | nil => simp [tileLoop]
  | cons e rest ih =>
    rw [tileLoop, List.enumFrom_cons]
    by_cases h : ok (iconPathOf env e)
    · have hm : memberEntry cfg env fname ok j e
          = { e with tile := some { file := fname, index := j, row := j / cfg.gridSize,
                                    col := j % cfg.gridSize } } := by
        simp [memberEntry, h]
      simp only [h, if_true, List.map_cons, hm]
      rw [ih]
    · have hm : memberEntry cfg env fname ok j e = e := by
        simp [memberEntry, h]
      simp only [h, Bool.false_eq_true, if_false, List.map_cons, hm]
      rw [ih]

theorem processChunksGo_getElem? (cfg : TilesConfig) (env : Env) (ok : String → Bool) :
    ∀ (i m : Nat) (cs : List (List Entry)),
      (processChunksGo cfg env ok i cs)[m]?
        = (cs[m]?).map (fun c => tileLoop cfg env (tileFilenameOf (i + m + 1)) ok 0 c) := by
  intro i m cs
  induction cs generalizing i m with
  | nil => simp [processChunksGo]
  | cons c cs ih =>
    cases m with
    | zero => simp [processChunksGo]
    | succ m =>
      rw [processChunksGo]
      simp only [List.getElem?_cons_succ]
      rw [ih (i + 1) m]
      have : i + 1 + m + 1 = i + (m + 1) + 1 := by omega
      rw [this]

theorem enumFrom_getElem? : ∀ (l : List α) (n m : Nat),
    (l.enumFrom n)[m]? = (l[m]?).map (fun a => (n + m, a)) := by
  intro l
  induction l with
  | nil => intro n m; simp
  | cons x xs ih =>
    intro n m
    cases m with
    | zero => simp
    | succ m =>
      rw [List.enumFrom_cons]
      simp only [List.getElem?_cons_succ]
      rw [ih (n + 1) m]
      have : n + 1 + m = n + (m + 1) := by omega
      rw [this]

/-- Claim C4: with the eligible catalogue sorted by rank and cut into chunks
of grid_size squared entries, the entry at zero-based position j of chunk i
(1-indexed) is the entry at global index (i-1) * grid_size^2 + j, the chunk is
rendered under filename tile_i.avif, and its cell is composited at
row = j div grid_size, col = j mod grid_size, pixel offset
(col * cell_size + border, row * cell_size + border) with
cell_size = icon_size + 2 * border_size, independently of other chunks. -/
theorem C4_deterministic_placement (cfg : TilesConfig) (env : Env) (ok : String → Bool)
    (es : List Entry) (i j : Nat) (hG : 0 < cfg.gridSize) (hi : 1 ≤ i)
    (hj : j < cfg.gridSize * cfg.gridSize) :
    Option.bind ((chunksOf (cfg.gridSize * cfg.gridSize) es)[i - 1]?) (fun ch => ch[j]?)
        = es[(i - 1) * (cfg.gridSize * cfg.gridSize) + j]?
    ∧ (∀ chunk, (chunksOf (cfg.gridSize * cfg.gridSize) es)[i - 1]? = some chunk →
        (processChunks cfg env ok (chunksOf (cfg.gridSize * cfg.gridSize) es))[i - 1]?
          = some (tileLoop cfg env (tileFilenameOf i) ok 0 chunk))
    ∧ (∀ e, memberComp cfg env ok j e
        = (if ok (iconPathOf env e) then
            some { iconPath := iconPathOf env e
                   left := (j % cfg.gridSize) * (cfg.iconSize + 2 * cfg.borderSize)
                     + cfg.borderSize
                   top := (j / cfg.gridSize) * (cfg.iconSize + 2 * cfg.borderSize)
                     + cfg.borderSize }
          else none))
    ∧ (∀ e, memberEntry cfg env (tileFilenameOf i) ok j e
        = (if ok (iconPathOf env e) then
            { e with tile := some { file := tileFilenameOf i, index := j,
                                    row := j / cfg.gridSize, col := j % cfg.gridSize } }
          else e)) := by
  refine ⟨?_, ?_, ?_, ?_⟩
  · exact chunksOf_member (cfg.gridSize * cfg.gridSize) (Nat.mul_pos hG hG) es (i - 1) j hj
  · intro chunk hc
    rw [processChunks, processChunksGo_getElem? cfg env ok 0 (i - 1), hc]
    have harith : 0 + (i - 1) + 1 = i := by omega
    rw [harith]
    rfl
  · intro e
    unfold memberComp cellSizeOf
    have harith : cfg.iconSize + cfg.borderSize * 2 = cfg.iconSize + 2 * cfg.borderSize := by
      ring
    rw [harith]
  · intro e
    rfl

theorem C4_deterministic_placement_witness :
    Option.bind ((chunksOf (tcfgSmall.gridSize * tcfgSmall.gridSize)
        [entryA, entryB])[2 - 1]?) (fun ch => ch[0]?)
      = some entryB := by
  have h := (C4_deterministic_placement tcfgSmall envEx (fun _ => true)
    [entryA, entryB] 2 0 (by decide) (by decide) (by decide)).1
  rw [h]
  rfl

/-- Claim C10: for every composited chunk the sidecar domain list has exactly
one domain per chunk member in chunk order — the sidecar position of a member
equals its zero-based grid position — including members whose icon fails to
load or resize; those members are omitted only from the composite list,
leaving their cell blank while their domain keeps its slot. -/
theorem C10_sidecar_slots (cfg : TilesConfig) (env : Env) (fname : String)
    (ok : String → Bool) (chunk : List Entry) :
    (tileLoop cfg env fname ok 0 chunk).2.1 = chunk.map (fun e => getDomain env e.url)
    ∧ (∀ j : Nat, ((tileLoop cfg env fname ok 0 chunk).2.1)[j]?
        = (chunk[j]?).map (fun e => getDomain env e.url))
    ∧ (tileLoop cfg env fname ok 0 chunk).1
        = (chunk.enumFrom 0).filterMap (fun p => memberComp cfg env ok p.1 p.2) := by
  refine ⟨tileLoop_domains cfg env fname ok 0 chunk, ?_,
    tileLoop_comps cfg env fname ok 0 chunk⟩
  intro j
  rw [tileLoop_domains cfg env fname ok 0 chunk, List.getElem?_map]

theorem C9_tile_assignment_counterexample :
    (tileLoop tcfgEx envEx "tile_1.avif" (fun _ => false) 0 [eNoTile]).2.2 = [eNoTile]
    ∧ eNoTile.tile = none := ⟨rfl, rfl⟩

/-- Claim C9, amended: after processing a chunk, the tile assignment
tile = (file, j, j div grid_size, j mod grid_size) is recorded exactly on the
members whose icon loads and resizes successfully; a member whose resize
fails is carried through unchanged, keeping its previous tile value. -/
theorem C9_tile_assignment_amended (cfg : TilesConfig) (env : Env) (fname : String)
    (ok : String → Bool) (chunk : List Entry) (j : Nat) (e : Entry)
    (hj : chunk[j]? = some e) :
    (ok (iconPathOf env e) = true →
      ((tileLoop cfg env fname ok 0 chunk).2.2)[j]?
        = some { e with tile := some { file := fname, index := j,
                                       row := j / cfg.gridSize, col := j % cfg.gridSize } })
    ∧ (ok (iconPathOf env e) = false →
      ((tileLoop cfg env fname ok 0 chunk).2.2)[j]? = some e) := by
  have hbase : ((tileLoop cfg env fname ok 0 chunk).2.2)[j]?
      = some (memberEntry cfg env fname ok j e) := by
    rw [tileLoop_entries cfg env fname ok 0 chunk, List.getElem?_map,
      enumFrom_getElem? chunk 0 j, hj]
    simp
  constructor
  · intro hok
    rw [hbase]
    simp [memberEntry, hok]
  · intro hok
    rw [hbase]
    simp [memberEntry, hok]

theorem C9_tile_assignment_witness :
    ((tileLoop tcfgEx envEx "tile_1.avif" (fun _ => true) 0 [entryA]).2.2)[0]?
      = some { entryA with tile := some { file := "tile_1.avif", index := 0,
                                          row := 0, col := 0 } } := by
  have h := (C9_tile_assignment_amended tcfgEx envEx "tile_1.avif" (fun _ => true)
    [entryA] 0 entryA rfl).1 rfl
  simpa using h

theorem insertByRank_perm (x : Entry) : ∀ l : List Entry, (insertByRank x l).Perm (x :: l)
  | [] => List.Perm.refl _
  | y :: ys => by
    rw [insertByRank]
    by_cases h : rk y < rk x
    · rw [if_pos h]
      exact (List.Perm.cons y (insertByRank_perm x ys)).trans (List.Perm.swap x y ys)
    · rw [if_neg h]

theorem sortByRank_perm : ∀ l : List Entry, (sortByRank l).Perm l
  | [] => List.Perm.refl _
  | x :: xs =>
    (insertByRank_perm x (sortByRank xs)).trans (List.Perm.cons x (sortByRank_perm xs))

theorem insertByRank_pairwise (x : Entry) :
    ∀ l : List Entry, List.Pairwise (fun a b => rk a ≤ rk b) l →
      List.Pairwise (fun a b => rk a ≤ rk b) (insertByRank x l)
  | [], _ => by simp [insertByRank]
  | y :: ys, h => by
    rw [insertByRank]
    rcases List.pairwise_cons.mp h with ⟨hy, hys⟩
    by_cases hc : rk y < rk x
    · rw [if_pos hc]
      refine List.pairwise_cons.mpr ⟨?_, insertByRank_pairwise x ys hys⟩
      intro z hz
      rcases List.mem_cons.mp ((insertByRank_perm x ys).mem_iff.mp hz) with hzx | hz2
      · rw [hzx]
        exact Nat.le_of_lt hc
      · exact hy z hz2
    · rw [if_neg hc]
      refine List.pairwise_cons.mpr ⟨?_, h⟩
      intro z hz
      rcases List.mem_cons.mp hz with hzy | hz2
      · rw [hzy]
        exact Nat.le_of_not_lt hc
      · exact Nat.le_trans (Nat.le_of_not_lt hc) (hy z hz2)

theorem sortByRank_pairwise : ∀ l : List Entry,
    List.Pairwise (fun a b => rk a ≤ rk b) (sortByRank l)
  | [] => by simp [sortByRank]
  | x :: xs => insertByRank_pairwise x (sortByRank xs) (sortByRank_pairwise xs)

theorem processChunksGo_domains (cfg : TilesConfig) (env : Env) (ok : String → Bool) :
    ∀ (i : Nat) (cs : List (List Entry)),
      (processChunksGo cfg env ok i cs).map (fun t => t.2.1)
        = cs.map (fun ch => ch.map (fun e => getDomain env e.url)) := by
  intro i cs
  induction cs generalizing i with
  | nil => simp [processChunksGo]
  | cons ch cs ih =>
    rw [processChunksGo, List.map_cons, List.map_cons]
    rw [tileLoop_domains, ih]

/-- Claim C7: concatenating the tile sidecar domain lists in ascending tile
index order yields exactly the domains of the eligible entries (accepted
status, truthy mtime-index hit, truthy rank) in rank-sorted order; under the
upstream invariants that eligible ranks are pairwise distinct and eligible
domains are pairwise distinct, that order is strictly ascending in rank and
the concatenation has no duplicate domains. -/
theorem C7_rank_order_reproduction (cfg : TilesConfig) (env : Env)
    (mt : String → Option Nat) (ok : String → Bool) (entries : List Entry)
    (hG : 0 < cfg.gridSize)
    (hr : ((entries.filter (isEligible env mt)).map rk).Nodup)
    (hd : ((entries.filter (isEligible env mt)).map
      (fun e => getDomain env e.url)).Nodup) :
    (tileSidecars cfg env mt ok entries).flatten
        = (validEntriesOf env mt entries).map (fun e => getDomain env e.url)
    ∧ (validEntriesOf env mt entries).Perm (entries.filter (isEligible env mt))
    ∧ List.Pairwise (fun a b => rk a < rk b) (validEntriesOf env mt entries)
    ∧ ((tileSidecars cfg env mt ok entries).flatten).Nodup := by
  have hperm : (validEntriesOf env mt entries).Perm
      (entries.filter (isEligible env mt)) :=
    sortByRank_perm (entries.filter (isEligible env mt))
  have hflat : (tileSidecars cfg env mt ok entries).flatten
      = (validEntriesOf env mt entries).map (fun e => getDomain env e.url) := by
    unfold tileSidecars processChunks
    rw [processChunksGo_domains]
    rw [← List.map_flatten]
    rw [chunksOf_flatten (cfg.gridSize * cfg.gridSize) (Nat.mul_pos hG hG)]
  refine ⟨hflat, hperm, ?_, ?_⟩
  · have hle := sortByRank_pairwise (entries.filter (isEligible env mt))
    have hnd : ((validEntriesOf env mt entries).map rk).Nodup :=
      ((hperm.map rk).nodup_iff).mpr hr
    have hne : List.Pairwise (fun a b => rk a ≠ rk b) (validEntriesOf env mt entries) :=
      List.pairwise_map.mp hnd
    exact (hle.and hne).imp (fun h => Nat.lt_of_le_of_ne h.1 h.2)
  · rw [hflat]
    exact ((hperm.map (fun e => getDomain env e.url)).nodup_iff).mpr hd

theorem C7_rank_order_reproduction_witness :
    (tileSidecars tcfgEx envEx mtEx (fun _ => true) [entryB, entryA, entryC]).flatten
      = ["a.com", "b.com"] := by
  have h := (C7_rank_order_reproduction tcfgEx envEx mtEx (fun _ => true)
    [entryB, entryA, entryC] (by decide) (by decide) (by decide)).1
  rw [h]
  rfl

theorem sortByWidthDesc_head : ∀ l : List IcoImage,
    (sortByWidthDesc l).head? = widestFirst l
  | [] => rfl
  | x :: xs => by
    cases hs : sortByWidthDesc xs with
    | nil =>
      have hw : widestFirst xs = none := by
        rw [← sortByWidthDesc_head xs, hs]
        rfl
      rw [sortByWidthDesc, hs, widestFirst, hw]
      rfl
    | cons y ys =>
      have hw : widestFirst xs = some y := by
        rw [← sortByWidthDesc_head xs, hs]
        rfl
      rw [sortByWidthDesc, hs, widestFirst, hw, insertByWidthDesc]
      by_cases hc : x.width < y.width
      · rw [if_pos hc]
        show _ = if x.width < y.width then some y else some x
        rw [if_pos hc]
        exact List.head?_cons
      · rw [if_neg hc]
        show _ = if x.width < y.width then some y else some x
        rw [if_neg hc]
        exact List.head?_cons

theorem widestFirst_ne_none (z : IcoImage) (zs : List IcoImage) :
    widestFirst (z :: zs) ≠ none := by
  rw [widestFirst]
  cases hz : widestFirst zs with
  | none => simp
  | some m =>
    by_cases hcc : z.width < m.width
    · simp [hcc]
    · simp [hcc]

theorem widestFirst_spec : ∀ (l : List IcoImage) (b : IcoImage),
    widestFirst l = some b →
      ∃ k, l[k]? = some b ∧ (∀ x ∈ l, x.width ≤ b.width)
        ∧ ∀ (m : Nat) (x : IcoImage), m < k → l[m]? = some x → x.width < b.width := by
  intro l
  induction l with
  | nil => intro b h; simp [widestFirst] at h
  | cons a xs ih =>
    intro b h
    cases hw : widestFirst xs with
    | none =>
      have h2 : widestFirst (a :: xs) = some a := by
        simp [widestFirst, hw]
      rw [h2] at h
      injection h with hb
      subst hb
      have hxs : xs = [] := by
        cases hxx : xs with
        | nil => rfl
        | cons z zs =>
          rw [hxx] at hw
          exact absurd hw (widestFirst_ne_none z zs)
      refine ⟨0, by simp, ?_, ?_⟩
      · intro x hx
        rcases List.mem_cons.mp hx with hxa | hx2
        · rw [hxa]
        · rw [hxs] at hx2
          exact absurd hx2 (List.not_mem_nil x)
      · intro m x hm hx
        omega
    | some m =>
      have h2 : widestFirst (a :: xs)
          = if a.width < m.width then some m else some a := by
        simp [widestFirst, hw]
      rw [h2] at h
      by_cases hc : a.width < m.width
      · rw [if_pos hc] at h
        injection h with hb
        subst hb
        obtain ⟨k, hk, hall, hbefore⟩ := ih m hw
        refine ⟨k + 1, by simpa using hk, ?_, ?_⟩
        · intro x hx
          rcases List.mem_cons.mp hx with hxa | hx2
          · rw [hxa]
            exact Nat.le_of_lt hc
          · exact hall x hx2
        · intro mm x hmm hx
          cases mm with
          | zero =>
            simp only [List.getElem?_cons_zero] at hx
            injection hx with hxa
            rw [← hxa]
            exact hc
          | succ mm =>
            simp only [List.getElem?_cons_succ] at hx
            exact hbefore mm x (by omega) hx
      · rw [if_neg hc] at h
        injection h with hb
        subst hb
        obtain ⟨k, hk, hall, hbefore⟩ := ih m hw
        refine ⟨0, by simp, ?_, ?_⟩
        · intro x hx
          rcases List.mem_cons.mp hx with hxa | hx2
          · rw [hxa]
          · exact Nat.le_trans (hall x hx2) (Nat.le_of_not_lt hc)
        · intro mm x hmm hx
          omega

theorem C6_ico_selection_counterexample :
    strIncludes "image/x-icon" "ico" = true
    ∧ decodeSelection envEx none (some "image/x-icon") "https://s.com/favicon.png"
        (some [{ width := 48, payload := 0 }]) = DecodeChoice.generic := by
  constructor
  · decide
  · decide

/-- Claim C6, amended: on a 200 response the ICO container path is taken
exactly when the entry's previously recorded content type (carried over from
the prior persisted state or input record, not the current response header)
contains "ico", or the favicon URL's path extension lowercases to ".ico"; in
that case the widest embedded raster is selected with ties broken by
first-seen order, and a parse failure or an empty container falls back to
generic single-image decoding. -/
theorem C6_ico_selection_amended (env : Env) (stored resp : Option String)
    (favUrl : String) (parse : Option (List IcoImage)) :
    (isIcoContent env stored favUrl = false →
      decodeSelection env stored resp favUrl parse = DecodeChoice.generic)
    ∧ (parse = none →
      decodeSelection env stored resp favUrl parse = DecodeChoice.generic)
    ∧ (parse = some [] →
      decodeSelection env stored resp favUrl parse = DecodeChoice.generic)
    ∧ (∀ icons b, parse = some icons → isIcoContent env stored favUrl = true →
        widestFirst icons = some b →
        decodeSelection env stored resp favUrl parse = DecodeChoice.fromIco b
        ∧ ∃ k, icons[k]? = some b ∧ (∀ x ∈ icons, x.width ≤ b.width)
          ∧ ∀ (m : Nat) (x : IcoImage), m < k → icons[m]? = some x
              → x.width < b.width) := by
  refine ⟨?_, ?_, ?_, ?_⟩
  · intro hico
    unfold decodeSelection
    rw [hico]
    rfl
  · intro hp
    rw [hp]
    unfold decodeSelection
    by_cases hico : isIcoContent env stored favUrl
    · rw [if_pos hico]
    · rw [if_neg hico]
  · intro hp
    rw [hp]
    unfold decodeSelection
    by_cases hico : isIcoContent env stored favUrl
    · rw [if_pos hico]
      rfl
    · rw [if_neg hico]
  · intro icons b hp hico hwf
    subst hp
    constructor
    · unfold decodeSelection
      rw [hico, if_pos rfl]
      have hne : 0 < icons.length := by
        cases icons with
        | nil => simp [widestFirst] at hwf
        | cons z zs => simp
      show (if 0 < icons.length then
          match (sortByWidthDesc icons).head? with
          | some best => DecodeChoice.fromIco best
          | none => DecodeChoice.generic
        else DecodeChoice.generic) = DecodeChoice.fromIco b
      rw [if_pos hne, sortByWidthDesc_head icons, hwf]
    · exact widestFirst_spec icons b hwf

theorem C6_ico_selection_witness :
    decodeSelection envEx (some "image/x-icon") none "https://w.com/f"
        (some [{ width := 16, payload := 0 }, { width := 32, payload := 1 },
               { width := 32, payload := 2 }])
      = DecodeChoice.fromIco { width := 32, payload := 1 } :=
  ((C6_ico_selection_amended envEx (some "image/x-icon") none "https://w.com/f"
      (some [{ width := 16, payload := 0 }, { width := 32, payload := 1 },
             { width := 32, payload := 2 }])).2.2.2
    [{ width := 16, payload := 0 }, { width := 32, payload := 1 },
     { width := 32, payload := 2 }]
    { width := 32, payload := 1 } rfl (by decide) (by decide)).1
